import Mathlib

/-
Verification of the Blackjack program (src/src.c) against its design
specification.  The C program is shallowly embedded: the card/deck data
model, the Fisher-Yates shuffle, the dealing/scoring routine `giveCards`
and the turn state machine of `main` are translated into executable Lean
definitions, and the specification's claims are settled as theorems about
those definitions.
-/

namespace Blackjack

/-- Mirrors `struct _Card_` from src.c: an ASCII-art image reference and a
point value (`int points_`).  The glyph contents are external assets; the
image is represented by its identifying string. -/
structure Card where
  image_ : String
  points_ : Int
deriving DecidableEq, Repr

/-- Stand-in for the indeterminate memory a C out-of-bounds read of
`cards[card_count]` would return; never produced by in-range reads. -/
def junkCard : Card := ⟨"", 0⟩

/-- The score update performed inside `giveCards` (src.c lines 112-120):
an ace (points 11) adds 1 if the pre-addition score already exceeds 10 and
11 otherwise; every other card adds its points. -/
def addPoints (score : Int) (c : Card) : Int :=
  if c.points_ = 11 then score + (if score > 10 then 1 else 11)
  else score + c.points_

/-- The out-parameters of `giveCards`: the receiver hand, the deck cursor
`card_count`, the hand size `receiver_count` and the running `score`. -/
structure DealResult where
  receiver : List Card
  card_count : Nat
  receiver_count : Nat
  score : Int
deriving DecidableEq, Repr

/-- Translation of `giveCards` (src.c lines 106-124): moves `amount` cards
from position `card_count` of `cards` into `receiver`, updating the score
per `addPoints` and advancing both counters once per card.  The C code
performs no bounds check; an out-of-range read is modelled by `junkCard`. -/
def giveCards (cards receiver : List Card) (card_count receiver_count : Nat)
    (score : Int) : Nat → DealResult
  | 0 => ⟨receiver, card_count, receiver_count, score⟩
  | Nat.succ n =>
      giveCards cards (receiver ++ [cards.getD card_count junkCard])
        (card_count + 1) (receiver_count + 1)
        (addPoints score (cards.getD card_count junkCard)) n

/-- The `file_names` table of `main` (src.c lines 216-220), standing in for
the rank glyphs. -/
def fileNames : List String :=
  ["ace.txt", "king.txt", "queen.txt", "jack.txt", "10.txt",
   "9.txt", "8.txt", "7.txt", "6.txt", "5.txt", "4.txt", "3.txt", "2.txt"]

/-- The `points` table of `main` (src.c line 221). -/
def pointsTable : List Int := [11, 10, 10, 10, 10, 9, 8, 7, 6, 5, 4, 3, 2]

/-- The deck built by `main` (src.c lines 236-312): for each of the 13
ranks in declaration order, four consecutive copies sharing the rank's
image and points. -/
def initialDeck : List Card :=
  (fileNames.zip pointsTable).flatMap fun p => List.replicate 4 ⟨p.1, p.2⟩

def ace : Card := ⟨"ace.txt", 11⟩
def king : Card := ⟨"king.txt", 10⟩
def queen : Card := ⟨"queen.txt", 10⟩
def ten : Card := ⟨"10.txt", 10⟩
def nine : Card := ⟨"9.txt", 9⟩
def seven : Card := ⟨"7.txt", 7⟩
def five : Card := ⟨"5.txt", 5⟩
def two : Card := ⟨"2.txt", 2⟩

/-- State of the C library pseudo-random generator set by `srand`. -/
structure RandState where
  next : Nat
deriving DecidableEq, Repr

/-- Models `srand(random_seed)` (called by `FisherYates`, src.c line 44):
stores the seed as the generator state.  The C library generator is an
external collaborator; it is modelled by the standard-C linear
congruential generator. -/
def srand (seed : Nat) : RandState := ⟨seed % 2 ^ 32⟩

/-- Models one call of the C library `rand()`: advances the linear
congruential state modulo 2^32 and returns a value in [0, 32768). -/
def randStep (s : RandState) : Nat × RandState :=
  let n := (s.next * 1103515245 + 12345) % 2 ^ 32
  ((n / 65536) % 32768, ⟨n⟩)

/-- The in-place array swap of src.c lines 48-50, on lists: exchanges the
elements at positions `i` and `j` (identity if either is out of range,
which never happens for the indices `FisherYates` produces). -/
def swapIdx (l : List Card) (i j : Nat) : List Card :=
  match l.get? i, l.get? j with
  | some a, some b => (l.set i b).set j a
  | _, _ => l

/-- The loop of `FisherYates` (src.c lines 45-51), with `i` the current
loop counter counting down to 0 exclusive: each iteration draws
`swap_index = rand() % (i + 1)` and swaps positions `i` and `swap_index`. -/
def fisherYatesAux : Nat → List Card → RandState → List Card
  | 0, deck, _ => deck
  | Nat.succ k, deck, st =>
      fisherYatesAux k
        (swapIdx deck (Nat.succ k) ((randStep st).1 % (Nat.succ k + 1)))
        (randStep st).2

/-- Translation of `FisherYates` (src.c lines 42-52): seeds the generator
with `random_seed` and runs the swap loop from `size - 1` down to 1. -/
def FisherYates (deck : List Card) (size : Nat) (random_seed : Nat) : List Card :=
  fisherYatesAux (size - 1) deck (srand random_seed)

/-- Modelled from the spec's words (§4.1 shuffle), for comparison with the
source translation `FisherYates`: "for i from last index down to 1, draw j
from [0, i] using a pseudo-random generator deterministically seeded by
seed, swap elements i and j", the index list written explicitly and folded
over while threading the generator state. -/
def fisherYatesSpec (deck : List Card) (size : Nat) (seed : Nat) : List Card :=
  (((List.range' 1 (size - 1)).reverse).foldl
    (fun (p : List Card × RandState) i =>
      ((swapIdx p.1 i ((randStep p.2).1 % (i + 1))), (randStep p.2).2))
    (deck, srand seed)).1

/-- Terminal results of a round, per the spec's Outcome vocabulary.  Each
constructor corresponds to one terminating message of `main`: dealer bust
prints "BUST! YOU WIN!" and is the spec's PlayerWin. -/
inductive Outcome where
  | PlayerBlackjack
  | DealerBlackjack
  | Push
  | PlayerWin
  | DealerWin
  | PlayerBust
  | DealerBust
deriving DecidableEq, Repr

/-- Control position of `main`'s game loop: `players_turn == 1`,
`players_turn == 0`, or a `break` with a printed outcome. -/
inductive Phase where
  | PlayerTurn
  | DealerTurn
  | Finished (o : Outcome)
deriving DecidableEq, Repr

/-- The mutable game variables of `main` (src.c lines 215, 319-325): the
shuffled deck with its shared cursor `card_count`, and each hand with its
count and score. -/
structure GameState where
  deck : List Card
  card_count : Nat
  player : List Card
  player_count : Nat
  player_score : Int
  dealer : List Card
  dealer_count : Nat
  dealer_score : Int
deriving DecidableEq, Repr

/-- The initial deal of `main` (src.c lines 327-328): two cards to the
player first, then two to the dealer, from the single shared cursor. -/
def initialState (deck : List Card) : GameState :=
  let p := giveCards deck [] 0 0 0 2
  let d := giveCards deck [] p.card_count 0 0 2
  ⟨deck, d.card_count, p.receiver, p.receiver_count, p.score,
   d.receiver, d.receiver_count, d.score⟩

/-- The post-deal natural-blackjack check of `main` (src.c lines 333-347):
a player score of 21 ends the round at once, a win unless the dealer's two
cards also score 21, in which case it is a push; otherwise the player's
turn begins. -/
def initialDeal (deck : List Card) : GameState × Phase :=
  let s := initialState deck
  if s.player_score = 21 then
    (s, Phase.Finished
      (if s.dealer_score ≠ 21 then Outcome.PlayerBlackjack else Outcome.Push))
  else (s, Phase.PlayerTurn)

/-- One round of the player branch of `main`'s loop (src.c lines 388-412):
"h" deals one card to the player and checks for 21 and bust, "s" hands the
turn to the dealer, and any other token leaves everything unchanged. -/
def playerStep (option : String) (s : GameState) : GameState × Phase :=
  if option = "h" then
    let r := giveCards s.deck s.player s.card_count s.player_count s.player_score 1
    let s' : GameState :=
      { s with player := r.receiver, player_count := r.receiver_count,
               card_count := r.card_count, player_score := r.score }
    if s'.player_score = 21 then (s', Phase.DealerTurn)
    else if s'.player_score > 21 then (s', Phase.Finished Outcome.PlayerBust)
    else (s', Phase.PlayerTurn)
  else if option = "s" then (s, Phase.DealerTurn)
  else (s, Phase.PlayerTurn)

/-- One iteration of the dealer draw loop body (src.c line 365): deal one
card from the cursor into the dealer's hand. -/
def dealDealer1 (s : GameState) : GameState :=
  let r := giveCards s.deck s.dealer s.card_count s.dealer_count s.dealer_score 1
  { s with dealer := r.receiver, dealer_count := r.receiver_count,
           card_count := r.card_count, dealer_score := r.score }

/-- The dealer draw loop of `main` (src.c lines 362-368): while the dealer
score is below the player score, deal one card to the dealer.  The C loop
has no bound of its own; `fuel` bounds the iterations, `none` marking fuel
exhaustion (never reached from in-range positive-point decks, see the
termination theorem). -/
def dealerLoop (fuel : Nat) (s : GameState) : Option GameState :=
  if s.dealer_score < s.player_score then
    match fuel with
    | 0 => none
    | Nat.succ f => dealerLoop f (dealDealer1 s)
  else some s

/-- The dealer branch of `main`'s loop (src.c lines 353-386): a natural
blackjack (score 21 with exactly 2 cards) ends the round at once;
otherwise the draw loop runs, then score 21 ends the round (push against a
player 21, else a dealer win), a bust ends it with a player win, and in
every remaining case `players_turn` is set back to 1. -/
def dealerTurn (fuel : Nat) (s : GameState) : Option (GameState × Phase) :=
  if s.dealer_score = 21 ∧ s.dealer_count = 2 then
    some (s, Phase.Finished Outcome.DealerBlackjack)
  else
    match dealerLoop fuel s with
    | none => none
    | some s' =>
      if s'.dealer_score = 21 then
        some (s', Phase.Finished
          (if s'.player_score = 21 then Outcome.Push else Outcome.DealerWin))
      else if s'.dealer_score > 21 then
        some (s', Phase.Finished Outcome.PlayerWin)
      else
        some (s', Phase.PlayerTurn)

/-- A concrete deck on which the player stands at 17 while the dealer must
draw from 12: player gets {10, 7}, dealer {10, 2}, next card a 7. -/
def catchupDeck : List Card := [ten, seven, ten, two, seven]

/-- The game state after the initial deal from `catchupDeck` and a player
Stand: player 17, dealer 12, cursor at 4. -/
def standState : GameState := (playerStep "s" (initialDeal catchupDeck).1).1

/-- The state after the dealer draw loop runs from `standState`: the dealer
drew the 7 and stopped at 19 ≥ 17. -/
def caughtUpState : GameState :=
  ⟨catchupDeck, 5, [ten, seven], 2, 17, [ten, two, seven], 3, 19⟩

/-- A deck giving the player a natural blackjack {Ace, King} against a
dealer {9, 9}. -/
def bjDeck : List Card := [ace, king, nine, nine]

/-- A dealer-turn entry state with a dealer natural blackjack {Ace, Queen}
against a player who reached 21 through hits ({5, 5, Ace}). -/
def dealerBJState : GameState := ⟨[], 6, [five, five, ace], 3, 21, [ace, queen], 2, 21⟩

/-- A dealer-turn entry state with the dealer at 12 below a player 15, on a
deck of tens: the draw loop must terminate. -/
def drawDemo : GameState := ⟨[ten, ten, ten, ten, ten], 0, [king, five], 2, 15, [ten, two], 2, 12⟩

/-- Unfolding equation of `giveCards` for one more card. -/
theorem giveCards_succ (cards receiver : List Card) (cc rc : Nat) (score : Int)
    (n : Nat) :
    giveCards cards receiver cc rc score (n + 1)
      = giveCards cards (receiver ++ [cards.getD cc junkCard]) (cc + 1) (rc + 1)
          (addPoints score (cards.getD cc junkCard)) n := rfl

/-- Counters and hand length advance by exactly one per dealt card,
unconditionally. -/
theorem giveCards_advance (cards : List Card) :
    ∀ (amount : Nat) (receiver : List Card) (cc rc : Nat) (score : Int),
      (giveCards cards receiver cc rc score amount).card_count = cc + amount
      ∧ (giveCards cards receiver cc rc score amount).receiver_count = rc + amount
      ∧ (giveCards cards receiver cc rc score amount).receiver.length
          = receiver.length + amount := by
  intro amount
  induction amount with
  | zero => intro receiver cc rc score; exact ⟨rfl, rfl, rfl⟩
  | succ n ih =>
      intro receiver cc rc score
      obtain ⟨h1, h2, h3⟩ :=
        ih (receiver ++ [cards.getD cc junkCard]) (cc + 1) (rc + 1)
          (addPoints score (cards.getD cc junkCard))
      rw [giveCards_succ]
      refine ⟨by rw [h1]; omega, by rw [h2]; omega,
        by rw [h3]; simp only [List.length_append, List.length_cons, List.length_nil]; omega⟩

/-- C2 (amended): `giveCards` performs no exhaustion check and has no
failure path: for every deck state, also when `amount` exceeds the number
of undealt cards, it still appends `amount` entries to the hand and
advances the deck cursor and hand count by `amount` (the C code then reads
out of bounds); there is no `DeckExhausted` error and no all-or-nothing
guard in the source. -/
theorem giveCards_unchecked_advance :
    ∀ (cards receiver : List Card) (cc rc : Nat) (score : Int) (amount : Nat),
      (giveCards cards receiver cc rc score amount).card_count = cc + amount
      ∧ (giveCards cards receiver cc rc score amount).receiver_count = rc + amount
      ∧ (giveCards cards receiver cc rc score amount).receiver.length
          = receiver.length + amount :=
  fun cards receiver cc rc score amount => giveCards_advance cards amount receiver cc rc score

/-- C2 counterexample: dealing 1 card from the 52-card deck whose cursor
already stands at 52 (no undealt cards) does not fail with the state
unchanged: the cursor advances past the deck and a card entry is appended
to the hand. -/
theorem giveCards_exhausted_counterexample :
    (giveCards initialDeck [] 52 0 0 1).card_count ≠ 52
    ∧ (giveCards initialDeck [] 52 0 0 1).receiver.length ≠ 0 := by decide

/-- C3: adding a dealt card updates the running score greedily: an ace
(points 11) adds 1 when the pre-addition score already exceeds 10 and 11
otherwise, and any other card adds exactly its points; concretely {Ace}
scores 11, {Ace, Ace} scores 12, {Ace, King} scores 21 and {10, 10, 2}
scores 22. -/
theorem giveCards_score_rule :
    (∀ (cards receiver : List Card) (cc rc : Nat) (score : Int),
      (giveCards cards receiver cc rc score 1).score =
        (if (cards.getD cc junkCard).points_ = 11 then
           (if score > 10 then score + 1 else score + 11)
         else score + (cards.getD cc junkCard).points_))
    ∧ (giveCards [ace] [] 0 0 0 1).score = 11
    ∧ (giveCards [ace, ace] [] 0 0 0 2).score = 12
    ∧ (giveCards [ace, king] [] 0 0 0 2).score = 21
    ∧ (giveCards [ten, ten, two] [] 0 0 0 3).score = 22 := by
  refine ⟨?_, by decide, by decide, by decide, by decide⟩
  intro cards receiver cc rc score
  show addPoints score (cards.getD cc junkCard) = _
  unfold addPoints
  by_cases h : (cards.getD cc junkCard).points_ = 11
  · rw [if_pos h, if_pos h]
    by_cases h2 : score > 10
    · rw [if_pos h2, if_pos h2]
    · rw [if_neg h2, if_neg h2]
  · rw [if_neg h, if_neg h]

/-- C4: the shuffle is deterministic in the seed: on two decks of identical
initial order and the same seed it produces identical output orders. -/
theorem FisherYates_deterministic (seed : Nat) (d1 d2 : List Card)
    (h : d1 = d2) : FisherYates d1 52 seed = FisherYates d2 52 seed := by
  rw [h]

/-- Witness for C4 at seed 7 on the constructed deck. -/
theorem FisherYates_deterministic_witness :
    FisherYates initialDeck 52 7 = FisherYates initialDeck 52 7 :=
  FisherYates_deterministic 7 initialDeck initialDeck rfl

/-- Replacing the element at position `m` by `x` while moving the replaced
element `b` to the front is a permutation of putting `x` at the front. -/
theorem cons_set_perm (x b : Card) :
    ∀ (t : List Card) (m : Nat), t.get? m = some b →
      (b :: t.set m x).Perm (x :: t) := by
  intro t
  induction t with
  | nil => intro m h; simp at h
  | cons y u ih =>
      intro m h
      cases m with
      | zero =>
          simp only [List.get?_cons_zero, Option.some.injEq] at h
          subst h
          exact List.Perm.swap x y u
      | succ k =>
          simp only [List.get?_cons_succ] at h
          exact ((List.Perm.swap y b _).trans ((ih k h).cons y)).trans
            (List.Perm.swap x y u)

/-- Writing each of two in-range positions with the other's element is a
permutation of the original list. -/
theorem set_set_perm :
    ∀ (l : List Card) (i j : Nat) (a b : Card),
      l.get? i = some a → l.get? j = some b → ((l.set i b).set j a).Perm l := by
  intro l
  induction l with
  | nil => intro i j a b hi _; simp at hi
  | cons x t ih =>
      intro i j a b hi hj
      cases i with
      | zero =>
          simp only [List.get?_cons_zero, Option.some.injEq] at hi
          subst hi
          cases j with
          | zero =>
              simp only [List.get?_cons_zero, Option.some.injEq] at hj
              subst hj
              simp only [List.set_cons_zero]
              exact List.Perm.refl _
          | succ m =>
              simp only [List.get?_cons_succ] at hj
              simp only [List.set_cons_zero, List.set_cons_succ]
              exact cons_set_perm x b t m hj
      | succ n =>
          simp only [List.get?_cons_succ] at hi
          cases j with
          | zero =>
              simp only [List.get?_cons_zero, Option.some.injEq] at hj
              subst hj
              simp only [List.set_cons_succ, List.set_cons_zero]
              exact cons_set_perm x a t n hi
          | succ m =>
              simp only [List.get?_cons_succ] at hj
              simp only [List.set_cons_succ]
              exact (ih n m a b hi hj).cons x

/-- A single swap step of the shuffle permutes the deck. -/
theorem swapIdx_perm (l : List Card) (i j : Nat) : (swapIdx l i j).Perm l := by
  unfold swapIdx
  cases hi : l.get? i with
  | none => exact List.Perm.refl l
  | some a =>
      cases hj : l.get? j with
      | none => exact List.Perm.refl l
      | some b => exact set_set_perm l i j a b hi hj

/-- The whole shuffle loop permutes the deck. -/
theorem fisherYatesAux_perm :
    ∀ (k : Nat) (deck : List Card) (st : RandState),
      (fisherYatesAux k deck st).Perm deck := by
  intro k
  induction k with
  | zero => intro deck st; exact List.Perm.refl deck
  | succ n ih =>
      intro deck st
      exact (ih _ _).trans (swapIdx_perm deck (Nat.succ n) _)

/-- C5: for every seed (and every deck, in particular the 52-card one) the
output of the shuffle is a permutation of its input: the multiset of cards
is preserved, no card duplicated or lost. -/
theorem FisherYates_perm (deck : List Card) (size seed : Nat) :
    (FisherYates deck size seed).Perm deck :=
  fisherYatesAux_perm (size - 1) deck (srand seed)

/-- The source shuffle loop equals the spec-style fold over the explicit
index list [size-1, ..., 1]. -/
theorem fisherYatesAux_eq_fold :
    ∀ (k : Nat) (deck : List Card) (st : RandState),
      ((List.range' 1 k).reverse.foldl
        (fun (p : List Card × RandState) i =>
          ((swapIdx p.1 i ((randStep p.2).1 % (i + 1))), (randStep p.2).2))
        (deck, st)).1 = fisherYatesAux k deck st := by
  intro k
  induction k with
  | zero => intro deck st; rfl
  | succ n ih =>
      intro deck st
      have h1 : List.range' 1 (n + 1) = List.range' 1 n ++ [n + 1] := by
        have h2 : 1 + 1 * n = n + 1 := by omega
        rw [List.range'_concat, h2]
      rw [h1, List.reverse_append, List.reverse_singleton, List.singleton_append,
        List.foldl_cons]
      exact ih _ _

/-- C6: the shuffle implements exactly the Fisher-Yates steps of the spec:
for i from the last index down to 1 it draws an index with the seeded
generator and swaps positions i and j, and the drawn index always lies in
[0, i], inclusive of i. -/
theorem FisherYates_implements_spec :
    (∀ (deck : List Card) (size seed : Nat),
      FisherYates deck size seed = fisherYatesSpec deck size seed)
    ∧ (∀ (st : RandState) (i : Nat), (randStep st).1 % (i + 1) ≤ i) := by
  constructor
  · intro deck size seed
    exact (fisherYatesAux_eq_fold (size - 1) deck (srand seed)).symm
  · intro st i
    exact Nat.lt_succ_iff.mp (Nat.mod_lt _ (Nat.succ_pos i))

/-- C7: after the initial deal (player first from the shared cursor), a
player 2-card score of 21 moves the engine directly to Finished without
entering any turn: a player blackjack unless the dealer's two cards also
score 21, which is a push. -/
theorem initialDeal_player_blackjack (deck : List Card)
    (h : (initialState deck).player_score = 21) :
    initialDeal deck
      = (initialState deck, Phase.Finished
          (if (initialState deck).dealer_score ≠ 21 then Outcome.PlayerBlackjack
           else Outcome.Push)) := by
  unfold initialDeal
  rw [if_pos h]

/-- Witness for C7: on the deck {Ace, King, 9, 9} the player is dealt 21
and the round finishes at once. -/
theorem initialDeal_player_blackjack_witness :
    initialDeal bjDeck
      = (initialState bjDeck, Phase.Finished
          (if (initialState bjDeck).dealer_score ≠ 21 then Outcome.PlayerBlackjack
           else Outcome.Push)) :=
  initialDeal_player_blackjack bjDeck (by decide)

/-- C8: on entering the dealer's turn, a dealer score of 21 with exactly 2
dealer cards finishes the round at once as a dealer blackjack, for every
player score (in particular a player 21 reached through hits), with no
dealer card drawn: the draw loop is never entered and the state is
returned unchanged. -/
theorem dealerTurn_natural_blackjack (fuel : Nat) (s : GameState)
    (h21 : s.dealer_score = 21) (h2 : s.dealer_count = 2) :
    dealerTurn fuel s = some (s, Phase.Finished Outcome.DealerBlackjack) := by
  unfold dealerTurn
  rw [if_pos ⟨h21, h2⟩]

/-- Witness for C8: the dealer's {Ace, Queen} beats a player at 21 from
three cards, with no draw. -/
theorem dealerTurn_natural_blackjack_witness :
    dealerTurn 3 dealerBJState
      = some (dealerBJState, Phase.Finished Outcome.DealerBlackjack) :=
  dealerTurn_natural_blackjack 3 dealerBJState (by decide) (by decide)

/-- C1 (amended): when the dealer draw loop exits at a dealer score that is
neither 21 nor a bust, and the dealer had no natural blackjack, the engine
does not resolve the round: it sets `players_turn` back to 1 and hands
control to the player, producing no outcome, even when the dealer score
exceeds or equals the player score. -/
theorem dealerTurn_residual_returns_to_player (fuel : Nat) (s s' : GameState)
    (hbj : ¬(s.dealer_score = 21 ∧ s.dealer_count = 2))
    (hloop : dealerLoop fuel s = some s')
    (h21 : s'.dealer_score ≠ 21) (hle : s'.dealer_score ≤ 21) :
    dealerTurn fuel s = some (s', Phase.PlayerTurn) := by
  unfold dealerTurn
  rw [if_neg hbj, hloop]
  show (if s'.dealer_score = 21 then _ else if s'.dealer_score > 21 then _ else _) = _
  rw [if_neg h21, if_neg (by omega : ¬s'.dealer_score > 21)]

/-- Witness for C1 (amended): the dealer catches up from 12 to 19 against a
player standing at 17 and the engine returns to the player's turn. -/
theorem dealerTurn_residual_witness :
    dealerTurn 8 standState = some (caughtUpState, Phase.PlayerTurn) :=
  dealerTurn_residual_returns_to_player 8 standState caughtUpState
    (by decide) (by decide) (by decide) (by decide)

/-- C1 counterexample: with the player standing at 17 and the dealer drawn
to 19 (no natural blackjack, score below 21), the claim demands an
immediate DealerWin; the engine instead returns control to the player. -/
theorem dealerTurn_residual_counterexample :
    (dealerTurn 8 standState).map Prod.snd = some Phase.PlayerTurn
    ∧ Phase.PlayerTurn ≠ Phase.Finished Outcome.DealerWin := by decide

/-- C9: in the player's turn, "h" draws exactly one card into the player's
hand (appending the card under the shared cursor) and recomputes the score
by the greedy rule, then moves to the dealer's turn on exactly 21, to a
player bust above 21, and stays in the player's turn otherwise; "s" moves
to the dealer's turn with nothing else changed; any other input changes no
state and the player is re-prompted. -/
theorem playerStep_transitions (s : GameState) (option : String) :
    (option = "h" →
      playerStep option s =
        (let s' : GameState :=
          { s with player := s.player ++ [s.deck.getD s.card_count junkCard],
                   player_count := s.player_count + 1,
                   card_count := s.card_count + 1,
                   player_score :=
                     addPoints s.player_score (s.deck.getD s.card_count junkCard) }
         if s'.player_score = 21 then (s', Phase.DealerTurn)
         else if s'.player_score > 21 then (s', Phase.Finished Outcome.PlayerBust)
         else (s', Phase.PlayerTurn)))
    ∧ (option = "s" → playerStep option s = (s, Phase.DealerTurn))
    ∧ (option ≠ "h" → option ≠ "s" → playerStep option s = (s, Phase.PlayerTurn)) := by
  refine ⟨?_, ?_, ?_⟩
  · intro h
    subst h
    rfl
  · intro h
    subst h
    rfl
  · intro h1 h2
    unfold playerStep
    rw [if_neg h1, if_neg h2]

/-- Witness for C9: an unrecognized token leaves the state and the turn
unchanged. -/
theorem playerStep_transitions_witness :
    playerStep "x" standState = (standState, Phase.PlayerTurn) :=
  (playerStep_transitions standState "x").2.2 (by decide) (by decide)

/-- A card with positive points strictly increases the running score. -/
theorem addPoints_ge (score : Int) (c : Card) (h : 1 ≤ c.points_) :
    score + 1 ≤ addPoints score c := by
  unfold addPoints
  by_cases h1 : c.points_ = 11
  · rw [if_pos h1]
    by_cases h2 : score > 10
    · rw [if_pos h2]
    · rw [if_neg h2]
      omega
  · rw [if_neg h1]
    omega

/-- The dealer draw loop succeeds (never runs out of fuel) whenever the
fuel covers the score gap and every deck position the loop can read holds
a positive-point card. -/
theorem dealerLoop_isSome :
    ∀ (fuel : Nat) (s : GameState),
      (s.player_score - s.dealer_score).toNat ≤ fuel →
      (∀ i : Nat, s.card_count ≤ i →
        i < s.card_count + (s.player_score - s.dealer_score).toNat →
        1 ≤ (s.deck.getD i junkCard).points_) →
      (dealerLoop fuel s).isSome := by
  intro fuel
  induction fuel with
  | zero =>
      intro s hgap _
      have hnd : ¬s.dealer_score < s.player_score := by omega
      unfold dealerLoop
      rw [if_neg hnd]
      rfl
  | succ f ih =>
      intro s hgap hwin
      by_cases hd : s.dealer_score < s.player_score
      · unfold dealerLoop
        rw [if_pos hd]
        show (dealerLoop f (dealDealer1 s)).isSome
        have hc : 1 ≤ (s.deck.getD s.card_count junkCard).points_ := by
          refine hwin s.card_count (le_refl _) ?_
          omega
        have hscore : s.dealer_score + 1 ≤ (dealDealer1 s).dealer_score :=
          addPoints_ge s.dealer_score (s.deck.getD s.card_count junkCard) hc
        have hdeck : (dealDealer1 s).deck = s.deck := rfl
        have hcc : (dealDealer1 s).card_count = s.card_count + 1 := rfl
        have hps : (dealDealer1 s).player_score = s.player_score := rfl
        refine ih (dealDealer1 s) ?_ ?_
        · rw [hps]
          omega
        · intro i h1 h2
          rw [hdeck]
          rw [hcc] at h1
          rw [hcc, hps] at h2
          refine hwin i (by omega) (by omega)
      · unfold dealerLoop
        rw [if_neg hd]
        rfl

/-- C10: every card of the constructed deck has positive points; dealing a
card with positive points strictly increases the receiving score by at
least 1; and consequently the dealer draw loop, which repeats only while
the dealer score is below the player score and deals one card per
iteration, terminates: fuel equal to the score gap (or more) is never
exhausted when the readable deck positions hold positive-point cards. -/
theorem dealt_card_increases_score_and_loop_terminates :
    (∀ c ∈ initialDeck, 1 ≤ c.points_)
    ∧ (∀ (cards receiver : List Card) (cc rc : Nat) (score : Int),
        1 ≤ (cards.getD cc junkCard).points_ →
        score + 1 ≤ (giveCards cards receiver cc rc score 1).score)
    ∧ (∀ (fuel : Nat) (s : GameState),
        (s.player_score - s.dealer_score).toNat ≤ fuel →
        (∀ i : Nat, s.card_count ≤ i →
          i < s.card_count + (s.player_score - s.dealer_score).toNat →
          1 ≤ (s.deck.getD i junkCard).points_) →
        (dealerLoop fuel s).isSome) := by
  refine ⟨by decide, ?_, dealerLoop_isSome⟩
  intro cards receiver cc rc score h
  exact addPoints_ge score (cards.getD cc junkCard) h

/-- Witness for C10: a dealt 10 raises the score from 0 to at least 1, and
the draw loop from dealer 12 against player 15 on a deck of tens
terminates within fuel 3. -/
theorem dealt_card_increases_witness :
    ((0 : Int) + 1 ≤ (giveCards [ten] [] 0 0 0 1).score)
    ∧ (dealerLoop 3 drawDemo).isSome :=
  ⟨dealt_card_increases_score_and_loop_terminates.2.1 [ten] [] 0 0 0 (by decide),
   dealt_card_increases_score_and_loop_terminates.2.2 3 drawDemo (by decide)
     (by
       intro i h1 h2
       have h3 : i < 3 := by
         have h4 : drawDemo.card_count = 0 := rfl
         have h5 : (drawDemo.player_score - drawDemo.dealer_score).toNat = 3 := rfl
         rw [h4, h5] at h2
         omega
       interval_cases i <;> decide)⟩

end Blackjack
